import Mathlib

/-!
Shallow embedding of the csv-slice library (src/lib.rs, src/error.rs).

The external csv reader is modelled as having already tokenized the byte
stream into a header record plus a stream of data records, each of which
either parsed into a list of field strings or failed with a parse message;
opening the file can fail with an I/O message.  The two library functions
`extract_rows` and `extract_columns` are transcribed from src/lib.rs.
-/

namespace CsvSlice

/-- One parsed CSV record: an ordered list of field strings
(models `csv::StringRecord`). -/
abbrev Record := List String

/-- The error enum of src/error.rs: `Csv` wraps a csv parse error message,
`IoError` wraps an I/O error message (the `Io` variant), and
`ColumnNotFound` carries the missing column name. -/
inductive CsvSliceError where
  | Csv (msg : String)
  | IoError (msg : String)
  | ColumnNotFound (name : String)
deriving DecidableEq, Repr

/-- A CSV source as produced by the external delimited-text reader:
the header record plus the stream of data records, each either parsed
or a parse failure carrying its message. -/
structure CsvSource where
  header : Record
  records : List (Except String Record)

/-- The input to the library functions: `File::open` either fails with an
I/O error or yields a readable source. -/
inductive CsvInput where
  | ioError (msg : String)
  | opened (src : CsvSource)

/-- The record loop of `extract_rows` (src/lib.rs lines 148-161), with the
running index `i` made explicit: parse the record (propagating a parse
error as `CsvSliceError.Csv`), push it when `start <= i < stop`, and break
after processing index `i` whenever `stop <= i`. -/
def extractRowsGo (start stop : Nat) :
    Nat → List (Except String Record) → Except CsvSliceError (List Record)
  | _, [] => .ok []
  | i, rec? :: rest =>
    match rec? with
    | .error msg => .error (.Csv msg)
    | .ok rec =>
      if stop ≤ i then
        .ok (if start ≤ i ∧ i < stop then [rec] else [])
      else
        match extractRowsGo start stop (i + 1) rest with
        | .error e => .error e
        | .ok rs => .ok (if start ≤ i ∧ i < stop then rec :: rs else rs)

/-- `extract_rows` (src/lib.rs lines 133-165): open the file, then run the
record loop over the data records (the reader skips the header record). -/
def extract_rows : CsvInput → Nat → Nat → Except CsvSliceError (List Record)
  | .ioError msg, _, _ => .error (.IoError msg)
  | .opened src, start, stop => extractRowsGo start stop 0 src.records

/-- Mirrors Rust's `Iterator::position`: the index of the first element
satisfying `p`, if any. -/
def position (p : α → Bool) : List α → Option Nat
  | [] => none
  | x :: xs => if p x then some 0 else (position p xs).map (· + 1)

/-- Index resolution of `extract_columns` (src/lib.rs lines 209-214):
each requested name resolves to the position of its first occurrence in
the header; the first missing name aborts with `ColumnNotFound`. -/
def resolveIndices (header : Record) :
    List String → Except CsvSliceError (List Nat)
  | [] => .ok []
  | col :: cols =>
    match position (fun h => h == col) header with
    | none => .error (.ColumnNotFound col)
    | some idx =>
      match resolveIndices header cols with
      | .error e => .error e
      | .ok idxs => .ok (idx :: idxs)

/-- Per-record projection of `extract_columns` (src/lib.rs lines 225-227):
`record.get(i).unwrap_or("")`, i.e. a missing field becomes the empty
string. -/
def projectRecord (indices : List Nat) (rec : Record) : List String :=
  indices.map (fun i => rec.getD i "")

/-- The record loop of `extract_columns` (src/lib.rs lines 220-231):
parse each record (propagating parse errors) and project it at the
resolved indices, in stream order. -/
def extractColumnsGo (indices : List Nat) :
    List (Except String Record) → Except CsvSliceError (List (List String))
  | [] => .ok []
  | rec? :: rest =>
    match rec? with
    | .error msg => .error (.Csv msg)
    | .ok rec =>
      match extractColumnsGo indices rest with
      | .error e => .error e
      | .ok rows => .ok (projectRecord indices rec :: rows)

/-- `extract_columns` (src/lib.rs lines 195-234): open the file, read the
header, resolve the requested names, then project every data record. -/
def extract_columns : CsvInput → List String → Except CsvSliceError (List (List String))
  | .ioError msg, _ => .error (.IoError msg)
  | .opened src, columns =>
    match resolveIndices src.header columns with
    | .error e => .error e
    | .ok indices => extractColumnsGo indices src.records

/-- A well-formed source: every data record parses. -/
def wfInput (header : Record) (recs : List Record) : CsvInput :=
  .opened ⟨header, recs.map Except.ok⟩

/-- The records of `l` whose zero-based index (counting from `i`) lies in
the half-open range `[start, stop)`, in order. -/
def keptBetween (start stop : Nat) : Nat → List α → List α
  | _, [] => []
  | i, x :: xs =>
    if start ≤ i ∧ i < stop then x :: keptBetween start stop (i + 1) xs
    else keptBetween start stop (i + 1) xs

/-- Modelled from the spec (section 9): the record-reading phase of the
simpler full-scan-then-filter implementation, which "reads every record of
the stream", stopping only at the first parse error. -/
def readAllRecords : List (Except String Record) → Except CsvSliceError (List Record)
  | [] => .ok []
  | .error msg :: _ => .error (.Csv msg)
  | .ok rec :: rest =>
    match readAllRecords rest with
    | .error e => .error e
    | .ok recs => .ok (rec :: recs)

/-- Modelled from the spec (section 9): the full-scan-then-filter row
extractor that reads every record of the stream and then keeps those with
index in `[start, stop)`. -/
def extract_rows_fullScan : CsvInput → Nat → Nat → Except CsvSliceError (List Record)
  | .ioError msg, _, _ => .error (.IoError msg)
  | .opened src, start, stop =>
    match readAllRecords src.records with
    | .error e => .error e
    | .ok recs => .ok (keptBetween start stop 0 recs)

/-- A stream whose third data record fails to parse: two good records
followed by a parse failure. -/
def badTailStream : CsvInput :=
  .opened ⟨["Name", "Age"],
    [.ok ["Alice", "30"], .ok ["Bob", "25"], .error "bad record"]⟩

/-! ### Helper lemmas about `keptBetween` -/

theorem keptBetween_eq_nil (start stop : Nat) (l : List α) :
    ∀ i, stop ≤ i → keptBetween start stop i l = [] := by
  induction l with
  | nil => intro i _; rfl
  | cons x xs ih =>
    intro i h
    simp only [keptBetween]
    rw [if_neg (by omega)]
    exact ih (i + 1) (by omega)

theorem mem_of_mem_keptBetween (start stop : Nat) (l : List α) :
    ∀ i x, x ∈ keptBetween start stop i l → x ∈ l := by
  induction l with
  | nil => intro i x h; simp [keptBetween] at h
  | cons y ys ih =>
    intro i x h
    simp only [keptBetween] at h
    by_cases hc : start ≤ i ∧ i < stop
    · rw [if_pos hc] at h
      rcases List.mem_cons.mp h with h | h
      · exact h ▸ List.mem_cons_self y ys
      · exact List.mem_cons_of_mem y (ih (i + 1) x h)
    · rw [if_neg hc] at h
      exact List.mem_cons_of_mem y (ih (i + 1) x h)

theorem keptBetween_length (start stop : Nat) (l : List α) :
    ∀ i, (keptBetween start stop i l).length =
      min stop (i + l.length) - max start i := by
  induction l with
  | nil => intro i; simp only [keptBetween, List.length_nil]; omega
  | cons x xs ih =>
    intro i
    simp only [keptBetween, List.length_cons]
    by_cases hc : start ≤ i ∧ i < stop
    · rw [if_pos hc]
      simp only [List.length_cons, ih (i + 1)]
      omega
    · rw [if_neg hc, ih (i + 1)]
      omega

theorem keptBetween_append (a b c : Nat) (hab : a ≤ b) (hbc : b ≤ c) (l : List α) :
    ∀ i, keptBetween a b i l ++ keptBetween b c i l = keptBetween a c i l := by
  induction l with
  | nil => intro i; rfl
  | cons x xs ih =>
    intro i
    simp only [keptBetween]
    by_cases h1 : a ≤ i ∧ i < b
    · rw [if_pos h1, if_neg (by omega), if_pos (by omega)]
      simp only [List.cons_append]
      rw [ih (i + 1)]
    · by_cases h2 : b ≤ i ∧ i < c
      · rw [if_neg h1, if_pos h2, if_pos (by omega)]
        have hnil := keptBetween_eq_nil a b xs (i + 1) (by omega)
        have hih := ih (i + 1)
        rw [hnil, List.nil_append] at hih
        rw [hnil, List.nil_append, hih]
      · rw [if_neg h1, if_neg h2, if_neg (by omega)]
        exact ih (i + 1)

/-! ### The record loop of `extract_rows` on well-formed streams -/

theorem extractRowsGo_allOk (start stop : Nat) (recs : List Record) :
    ∀ i, extractRowsGo start stop i (recs.map Except.ok) =
      Except.ok (keptBetween start stop i recs) := by
  induction recs with
  | nil => intro i; rfl
  | cons r rs ih =>
    intro i
    simp only [List.map_cons, extractRowsGo, keptBetween]
    by_cases hstop : stop ≤ i
    · rw [if_pos hstop, if_neg (by omega), if_neg (by omega),
        keptBetween_eq_nil start stop rs (i + 1) (by omega)]
    · rw [if_neg hstop, ih (i + 1)]

theorem extract_rows_wf (header : Record) (recs : List Record) (start stop : Nat) :
    extract_rows (wfInput header recs) start stop =
      Except.ok (keptBetween start stop 0 recs) := by
  simp only [extract_rows, wfInput]
  exact extractRowsGo_allOk start stop recs 0

/-! ### Helper lemmas for the full-scan reference implementation -/

theorem readAllRecords_allOk (recs : List Record) :
    readAllRecords (recs.map Except.ok) = Except.ok recs := by
  induction recs with
  | nil => rfl
  | cons r rs ih => simp only [List.map_cons, readAllRecords, ih]

/-! ### Helper lemmas about `position` -/

theorem position_eq_none_iff (p : α → Bool) (l : List α) :
    position p l = none ↔ ∀ x ∈ l, p x = false := by
  induction l with
  | nil => simp [position]
  | cons x xs ih =>
    simp only [position, List.mem_cons]
    by_cases hx : p x
    · simp [hx]
    · rw [if_neg hx]
      simp only [Option.map_eq_none', ih]
      constructor
      · intro h y hy
        rcases hy with hy | hy
        · subst hy; exact Bool.eq_false_iff.mpr hx
        · exact h y hy
      · intro h y hy
        exact h y (Or.inr hy)

theorem position_eq_some (p : α → Bool) (l : List α) :
    ∀ j, position p l = some j →
      ∃ x, l.get? j = some x ∧ p x = true ∧
        ∀ k y, k < j → l.get? k = some y → p y = false := by
  induction l with
  | nil => intro j h; simp [position] at h
  | cons x xs ih =>
    intro j h
    simp only [position] at h
    by_cases hx : p x
    · rw [if_pos hx] at h
      cases h
      exact ⟨x, rfl, hx, fun k y hk _ => absurd hk (Nat.not_lt_zero k)⟩
    · rw [if_neg hx] at h
      rcases Option.map_eq_some'.mp h with ⟨j0, hj0, rfl⟩
      rcases ih j0 hj0 with ⟨y, hy, hpy, hfirst⟩
      refine ⟨y, hy, hpy, ?_⟩
      intro k z hk hz
      cases k with
      | zero =>
        simp only [List.get?] at hz
        cases hz
        exact Bool.eq_false_iff.mpr hx
      | succ k =>
        simp only [List.get?] at hz
        exact hfirst k z (by omega) hz

theorem position_mem_of_some (p : α → Bool) (l : List α) (j : Nat)
    (h : position p l = some j) : ∃ x ∈ l, p x = true := by
  rcases position_eq_some p l j h with ⟨x, hx, hpx, _⟩
  exact ⟨x, List.get?_mem hx, hpx⟩

theorem position_beq_eq_none_iff (c : String) (l : List String) :
    position (fun h => h == c) l = none ↔ c ∉ l := by
  rw [position_eq_none_iff]
  constructor
  · intro h hc
    have := h c hc
    simp at this
  · intro hc x hx
    by_cases hxc : x = c
    · exact absurd (hxc ▸ hx) hc
    · exact beq_eq_false_iff_ne.mpr hxc

/-! ### Helper lemmas about `resolveIndices` -/

theorem resolveIndices_error_of_missing (header : Record) (columns : List String)
    (h : ∃ c ∈ columns, c ∉ header) :
    ∃ c, c ∈ columns ∧ c ∉ header ∧
      resolveIndices header columns = Except.error (CsvSliceError.ColumnNotFound c) := by
  induction columns with
  | nil => simp at h
  | cons col cols ih =>
    cases hpos : position (fun h => h == col) header with
    | none =>
      refine ⟨col, List.mem_cons_self col cols, ?_, ?_⟩
      · exact (position_beq_eq_none_iff col header).mp hpos
      · simp only [resolveIndices, hpos]
    | some idx =>
      have hcol : col ∈ header := by
        rcases position_mem_of_some _ header idx hpos with ⟨x, hx, hpx⟩
        exact (eq_of_beq hpx) ▸ hx
      rcases h with ⟨c, hc, hcnot⟩
      rcases List.mem_cons.mp hc with rfl | hc
      · exact absurd hcol hcnot
      · rcases ih ⟨c, hc, hcnot⟩ with ⟨c0, hc0, hc0not, herr⟩
        refine ⟨c0, List.mem_cons_of_mem col hc0, hc0not, ?_⟩
        simp only [resolveIndices, hpos, herr]

theorem resolveIndices_ok_of_all_mem (header : Record) (columns : List String)
    (h : ∀ c ∈ columns, c ∈ header) :
    ∃ indices, resolveIndices header columns = Except.ok indices := by
  induction columns with
  | nil => exact ⟨[], rfl⟩
  | cons col cols ih =>
    cases hpos : position (fun h => h == col) header with
    | none =>
      have := (position_beq_eq_none_iff col header).mp hpos
      exact absurd (h col (List.mem_cons_self col cols)) this
    | some idx =>
      rcases ih (fun c hc => h c (List.mem_cons_of_mem col hc)) with ⟨idxs, hidxs⟩
      exact ⟨idx :: idxs, by simp only [resolveIndices, hpos, hidxs]⟩

theorem resolveIndices_length (header : Record) (columns : List String) :
    ∀ indices, resolveIndices header columns = Except.ok indices →
      indices.length = columns.length := by
  induction columns with
  | nil =>
    intro indices h
    simp only [resolveIndices] at h
    cases h
    rfl
  | cons col cols ih =>
    intro indices h
    simp only [resolveIndices] at h
    cases hpos : position (fun h => h == col) header with
    | none => rw [hpos] at h; cases h
    | some idx =>
      rw [hpos] at h
      cases hres : resolveIndices header cols with
      | error e => rw [hres] at h; cases h
      | ok idxs =>
        rw [hres] at h
        cases h
        simp only [List.length_cons, ih idxs hres]

theorem resolveIndices_get? (header : Record) (columns : List String) :
    ∀ indices, resolveIndices header columns = Except.ok indices →
      ∀ k c, columns.get? k = some c →
        ∃ idx, indices.get? k = some idx ∧
          position (fun h => h == c) header = some idx := by
  induction columns with
  | nil => intro indices _ k c hc; simp at hc
  | cons col cols ih =>
    intro indices h k c hc
    simp only [resolveIndices] at h
    cases hpos : position (fun h => h == col) header with
    | none => rw [hpos] at h; cases h
    | some idx =>
      rw [hpos] at h
      cases hres : resolveIndices header cols with
      | error e => rw [hres] at h; cases h
      | ok idxs =>
        rw [hres] at h
        cases h
        cases k with
        | zero =>
          simp only [List.get?] at hc
          cases hc
          exact ⟨idx, rfl, hpos⟩
        | succ k =>
          simp only [List.get?] at hc ⊢
          exact ih idxs hres k c hc

/-! ### Helper lemmas about the record loop of `extract_columns` -/

theorem extractColumnsGo_allOk (indices : List Nat) (recs : List Record) :
    extractColumnsGo indices (recs.map Except.ok) =
      Except.ok (recs.map (projectRecord indices)) := by
  induction recs with
  | nil => rfl
  | cons r rs ih => simp only [List.map_cons, extractColumnsGo, ih]

/-! ### Error-shape lemmas -/

theorem extractRowsGo_error_shape (start stop : Nat)
    (l : List (Except String Record)) :
    ∀ i e, extractRowsGo start stop i l = Except.error e →
      ∃ m, e = CsvSliceError.Csv m := by
  induction l with
  | nil => intro i e h; cases h
  | cons rec? rest ih =>
    intro i e h
    cases rec? with
    | error msg =>
      simp only [extractRowsGo] at h
      cases h
      exact ⟨msg, rfl⟩
    | ok rec =>
      simp only [extractRowsGo] at h
      by_cases hstop : stop ≤ i
      · rw [if_pos hstop] at h; cases h
      · rw [if_neg hstop] at h
        cases hrec : extractRowsGo start stop (i + 1) rest with
        | error e0 =>
          rw [hrec] at h
          have he : e0 = e := Except.error.inj h
          exact he ▸ ih (i + 1) e0 hrec
        | ok rs => rw [hrec] at h; cases h

theorem extractColumnsGo_error_shape (indices : List Nat)
    (l : List (Except String Record)) :
    ∀ e, extractColumnsGo indices l = Except.error e →
      ∃ m, e = CsvSliceError.Csv m := by
  induction l with
  | nil => intro e h; cases h
  | cons rec? rest ih =>
    intro e h
    cases rec? with
    | error msg =>
      simp only [extractColumnsGo] at h
      cases h
      exact ⟨msg, rfl⟩
    | ok rec =>
      simp only [extractColumnsGo] at h
      cases hrec : extractColumnsGo indices rest with
      | error e0 =>
        rw [hrec] at h
        have he : e0 = e := Except.error.inj h
        exact he ▸ ih e0 hrec
      | ok rows => rw [hrec] at h; cases h

theorem resolveIndices_error_shape (header : Record) (columns : List String) :
    ∀ e, resolveIndices header columns = Except.error e →
      ∃ c, c ∈ columns ∧ e = CsvSliceError.ColumnNotFound c := by
  induction columns with
  | nil => intro e h; cases h
  | cons col cols ih =>
    intro e h
    simp only [resolveIndices] at h
    cases hpos : position (fun h => h == col) header with
    | none =>
      rw [hpos] at h
      cases h
      exact ⟨col, List.mem_cons_self col cols, rfl⟩
    | some idx =>
      rw [hpos] at h
      cases hres : resolveIndices header cols with
      | error e0 =>
        rw [hres] at h
        have he : e0 = e := Except.error.inj h
        rcases ih e0 hres with ⟨c, hc, hce⟩
        exact ⟨c, List.mem_cons_of_mem col hc, he ▸ hce⟩
      | ok idxs => rw [hres] at h; cases h

/-! ### Claim theorems -/

/-- Claim C1: for every CSV source whose records all parse and every
`start` and `stop`, `extract_rows` succeeds with exactly the data records
whose zero-based data-row index `i` satisfies `start ≤ i < stop`
(`keptBetween start stop 0`), in stream order; every returned record is one
of the data records, so the header record is never included. -/
theorem extract_rows_selects_range (header : Record) (recs : List Record)
    (start stop : Nat) :
    extract_rows (wfInput header recs) start stop =
      Except.ok (keptBetween start stop 0 recs) ∧
    ∀ r ∈ keptBetween start stop 0 recs, r ∈ recs :=
  ⟨extract_rows_wf header recs start stop,
   fun r hr => mem_of_mem_keptBetween start stop recs 0 r hr⟩

/-- Witness for C1 on Scenario A of the spec. -/
theorem extract_rows_selects_range_witness :
    extract_rows
        (wfInput ["Name", "Age"] [["Alice", "30"], ["Bob", "25"], ["Charlie", "40"]]) 0 2 =
      Except.ok (keptBetween 0 2 0 [["Alice", "30"], ["Bob", "25"], ["Charlie", "40"]]) ∧
    ["Alice", "30"] ∈ [["Alice", "30"], ["Bob", "25"], ["Charlie", "40"]] :=
  ⟨(extract_rows_selects_range ["Name", "Age"]
      [["Alice", "30"], ["Bob", "25"], ["Charlie", "40"]] 0 2).1,
   (extract_rows_selects_range ["Name", "Age"]
      [["Alice", "30"], ["Bob", "25"], ["Charlie", "40"]] 0 2).2
     ["Alice", "30"] (by decide)⟩

/-- Claim C2: on a well-formed source the call always succeeds (also when
`stop` exceeds the number of data rows), and the result length is
`min stop total - min start total`; Nat subtraction performs the clamping
to zero, so for `start ≥ stop` the formula gives `0` and the result is
empty. Stated for all `start` and `stop`, which subsumes the claim's
`start ≤ stop` case. -/
theorem extract_rows_length_formula (header : Record) (recs : List Record)
    (start stop : Nat) :
    ∃ rows, extract_rows (wfInput header recs) start stop = Except.ok rows ∧
      rows.length = min stop recs.length - min start recs.length := by
  refine ⟨keptBetween start stop 0 recs, extract_rows_wf header recs start stop, ?_⟩
  rw [keptBetween_length start stop recs 0]
  omega

/-- Claim C3, counterexample: on a stream whose third record fails to
parse, `extract_rows _ 0 1` breaks out before reaching the bad record and
succeeds, while the full-scan-then-filter implementation reads every
record and fails, so the two are not behaviorally equivalent on every CSV
source. -/
theorem extract_rows_fullscan_equiv_cex :
    extract_rows badTailStream 0 1 = Except.ok [["Alice", "30"]] ∧
    extract_rows_fullScan badTailStream 0 1 =
      Except.error (CsvSliceError.Csv "bad record") ∧
    extract_rows badTailStream 0 1 ≠ extract_rows_fullScan badTailStream 0 1 := by
  have h1 : extract_rows badTailStream 0 1 = Except.ok [["Alice", "30"]] := rfl
  have h2 : extract_rows_fullScan badTailStream 0 1 =
      Except.error (CsvSliceError.Csv "bad record") := rfl
  refine ⟨h1, h2, ?_⟩
  rw [h1, h2]
  intro h
  exact Except.noConfusion h

/-- Claim C3, amended: on every CSV source whose records all parse, the
early-exit extractor and the full-scan-then-filter implementation return
the same result. -/
theorem extract_rows_fullscan_equiv_parsed (header : Record) (recs : List Record)
    (start stop : Nat) :
    extract_rows (wfInput header recs) start stop =
      extract_rows_fullScan (wfInput header recs) start stop := by
  rw [extract_rows_wf]
  simp only [extract_rows_fullScan, wfInput, readAllRecords_allOk]

/-- Claim C4: on a well-formed source, the results for the adjacent ranges
`[a, b)` and `[b, c)` concatenate to the result for `[a, c)`. -/
theorem extract_rows_range_compose (header : Record) (recs : List Record)
    (a b c : Nat) (hab : a ≤ b) (hbc : b ≤ c) :
    ∃ r1 r2 r3,
      extract_rows (wfInput header recs) a b = Except.ok r1 ∧
      extract_rows (wfInput header recs) b c = Except.ok r2 ∧
      extract_rows (wfInput header recs) a c = Except.ok r3 ∧
      r1 ++ r2 = r3 :=
  ⟨keptBetween a b 0 recs, keptBetween b c 0 recs, keptBetween a c 0 recs,
   extract_rows_wf header recs a b, extract_rows_wf header recs b c,
   extract_rows_wf header recs a c, keptBetween_append a b c hab hbc recs 0⟩

/-- Witness for C4 at the ranges `[0, 1)` and `[1, 3)` over three rows. -/
theorem extract_rows_range_compose_witness :
    ∃ r1 r2 r3,
      extract_rows (wfInput ["H"] [["1"], ["2"], ["3"]]) 0 1 = Except.ok r1 ∧
      extract_rows (wfInput ["H"] [["1"], ["2"], ["3"]]) 1 3 = Except.ok r2 ∧
      extract_rows (wfInput ["H"] [["1"], ["2"], ["3"]]) 0 3 = Except.ok r3 ∧
      r1 ++ r2 = r3 :=
  extract_rows_range_compose ["H"] [["1"], ["2"], ["3"]] 0 1 3
    (by decide) (by decide)

/-- Claim C5: when some requested name has no occurrence in the header,
`extract_columns` fails with `ColumnNotFound` carrying a missing name, and
the result is the same error for every stream of data records — the
failure happens before any data row is processed and no rows are
returned. -/
theorem extract_columns_missing_column_error (header : Record)
    (columns : List String) (h : ∃ c ∈ columns, c ∉ header) :
    ∃ c, c ∈ columns ∧ c ∉ header ∧
      ∀ records, extract_columns (.opened ⟨header, records⟩) columns =
        Except.error (CsvSliceError.ColumnNotFound c) := by
  rcases resolveIndices_error_of_missing header columns h with ⟨c, hc, hcn, herr⟩
  exact ⟨c, hc, hcn, fun records => by simp only [extract_columns, herr]⟩

/-- Witness for C5 on Scenario C of the spec. -/
theorem extract_columns_missing_column_error_witness :
    ∃ c, c ∈ ["Email"] ∧ c ∉ (["Name", "Age"] : Record) ∧
      ∀ records, extract_columns (.opened ⟨["Name", "Age"], records⟩) ["Email"] =
        Except.error (CsvSliceError.ColumnNotFound c) :=
  extract_columns_missing_column_error ["Name", "Age"] ["Email"]
    ⟨"Email", by decide, by decide⟩

/-- Claim C6: when every requested name occurs in the header, resolution
succeeds and `extract_columns` on a well-formed source returns one
projected row per data record, in stream order (the k-th output row is the
projection of the k-th data record), so the output row count equals the
data-row count regardless of which columns are requested. -/
theorem extract_columns_row_count (header : Record) (recs : List Record)
    (columns : List String) (h : ∀ c ∈ columns, c ∈ header) :
    ∃ indices, resolveIndices header columns = Except.ok indices ∧
      extract_columns (wfInput header recs) columns =
        Except.ok (recs.map (projectRecord indices)) ∧
      (recs.map (projectRecord indices)).length = recs.length := by
  rcases resolveIndices_ok_of_all_mem header columns h with ⟨indices, hres⟩
  refine ⟨indices, hres, ?_, List.length_map recs (projectRecord indices)⟩
  simp only [extract_columns, wfInput, hres, extractColumnsGo_allOk]

/-- Witness for C6 on Scenario B of the spec. -/
theorem extract_columns_row_count_witness :
    ∃ indices, resolveIndices ["Name", "Age"] ["Name"] = Except.ok indices ∧
      extract_columns
          (wfInput ["Name", "Age"] [["Alice", "30"], ["Bob", "25"], ["Charlie", "40"]])
          ["Name"] =
        Except.ok
          ([["Alice", "30"], ["Bob", "25"], ["Charlie", "40"]].map (projectRecord indices)) ∧
      ([["Alice", "30"], ["Bob", "25"], ["Charlie", "40"]].map (projectRecord indices)).length =
        ([["Alice", "30"], ["Bob", "25"], ["Charlie", "40"]] : List Record).length :=
  extract_columns_row_count ["Name", "Age"]
    [["Alice", "30"], ["Bob", "25"], ["Charlie", "40"]] ["Name"] (by decide)

/-- Claim C7: successful resolution yields one index per requested name;
each resolved index points at the first occurrence of its name in the
header (the named field is there and no earlier field carries that name);
duplicate requests are allowed and equal names resolve to equal indices,
so each output row — which lists the looked-up values in requested-name
order — carries identical values at positions requesting the same name. -/
theorem extract_columns_first_match (header : Record) (columns : List String)
    (indices : List Nat) (h : resolveIndices header columns = Except.ok indices) :
    indices.length = columns.length ∧
    (∀ k c idx, columns.get? k = some c → indices.get? k = some idx →
      header.get? idx = some c ∧
        ∀ j y, j < idx → header.get? j = some y → y ≠ c) ∧
    (∀ p q c, columns.get? p = some c → columns.get? q = some c →
      indices.get? p = indices.get? q) ∧
    (∀ rec p q c, columns.get? p = some c → columns.get? q = some c →
      (projectRecord indices rec).get? p = (projectRecord indices rec).get? q) := by
  have hget := resolveIndices_get? header columns indices h
  have hdup : ∀ p q c, columns.get? p = some c → columns.get? q = some c →
      indices.get? p = indices.get? q := by
    intro p q c hp hq
    rcases hget p c hp with ⟨ip, hip, hposp⟩
    rcases hget q c hq with ⟨iq, hiq, hposq⟩
    rw [hip, hiq, Option.some.injEq]
    exact Option.some.inj (hposp.symm.trans hposq)
  refine ⟨resolveIndices_length header columns indices h, ?_, hdup, ?_⟩
  · intro k c idx hc hidx
    rcases hget k c hc with ⟨idx0, hidx0, hpos⟩
    have hidxeq : idx0 = idx := Option.some.inj (hidx0.symm.trans hidx)
    subst hidxeq
    rcases position_eq_some (fun h => h == c) header idx0 hpos with ⟨x, hx, hpx, hfirst⟩
    have hxc : x = c := eq_of_beq hpx
    subst hxc
    refine ⟨hx, ?_⟩
    intro j y hj hy
    exact beq_eq_false_iff_ne.mp (hfirst j y hj hy)
  · intro rec p q c hp hq
    simp only [projectRecord, List.get?_map]
    rw [hdup p q c hp hq]

/-- Witness for C7: duplicated header name and duplicated request; the
resolved indices both point at the first "Name" field. -/
theorem extract_columns_first_match_witness :
    ([0, 0] : List Nat).length = (["Name", "Name"] : List String).length ∧
    (∀ k c idx, (["Name", "Name"] : List String).get? k = some c →
      ([0, 0] : List Nat).get? k = some idx →
      (["Name", "Age", "Name"] : Record).get? idx = some c ∧
        ∀ j y, j < idx → (["Name", "Age", "Name"] : Record).get? j = some y → y ≠ c) ∧
    (∀ p q c, (["Name", "Name"] : List String).get? p = some c →
      (["Name", "Name"] : List String).get? q = some c →
      ([0, 0] : List Nat).get? p = ([0, 0] : List Nat).get? q) ∧
    (∀ rec p q c, (["Name", "Name"] : List String).get? p = some c →
      (["Name", "Name"] : List String).get? q = some c →
      (projectRecord [0, 0] rec).get? p = (projectRecord [0, 0] rec).get? q) :=
  extract_columns_first_match ["Name", "Age", "Name"] ["Name", "Name"] [0, 0] rfl

/-- Claim C8: the per-field projection is total — whenever a resolved
index lies beyond the record's field count, the output field at that
position is the empty string — and after successful resolution the call
succeeds on every well-formed stream no matter how short its records are,
so the out-of-bounds branch never fails the call. -/
theorem extract_columns_projection_total :
    (∀ (indices : List Nat) (rec : Record) (k idx : Nat),
      indices.get? k = some idx → rec.length ≤ idx →
        (projectRecord indices rec).get? k = some "") ∧
    (∀ (header : Record) (recs : List Record) (columns : List String)
      (indices : List Nat), resolveIndices header columns = Except.ok indices →
        extract_columns (wfInput header recs) columns =
          Except.ok (recs.map (projectRecord indices))) := by
  constructor
  · intro indices rec k idx hk hlen
    simp only [projectRecord, List.get?_map, hk, Option.map_some']
    rw [List.getD_eq_default rec "" hlen]
  · intro header recs columns indices hres
    simp only [extract_columns, wfInput, hres, extractColumnsGo_allOk]

/-- Witness for C8: a record with one field projected at index 2 yields
the empty string. -/
theorem extract_columns_projection_total_witness :
    (projectRecord [2, 0] ["only"]).get? 0 = some "" :=
  extract_columns_projection_total.1 [2, 0] ["only"] 0 2 rfl (by decide)

/-- Claim C9: every `CsvSliceError` is one of exactly three cases (parse,
I/O, column-not-found), each carrying its message or the missing name;
`extract_rows` only ever fails with a parse or I/O error (never
`ColumnNotFound`), and `extract_columns` fails with one of the three, the
`ColumnNotFound` case naming one of the requested columns. -/
theorem error_taxonomy_three_cases :
    (∀ e : CsvSliceError,
      (∃ m, e = CsvSliceError.Csv m) ∨ (∃ m, e = CsvSliceError.IoError m) ∨
        (∃ c, e = CsvSliceError.ColumnNotFound c)) ∧
    (∀ (inp : CsvInput) (start stop : Nat) (e : CsvSliceError),
      extract_rows inp start stop = Except.error e →
        (∃ m, e = CsvSliceError.Csv m) ∨ (∃ m, e = CsvSliceError.IoError m)) ∧
    (∀ (inp : CsvInput) (columns : List String) (e : CsvSliceError),
      extract_columns inp columns = Except.error e →
        (∃ m, e = CsvSliceError.Csv m) ∨ (∃ m, e = CsvSliceError.IoError m) ∨
          (∃ c, c ∈ columns ∧ e = CsvSliceError.ColumnNotFound c)) := by
  refine ⟨?_, ?_, ?_⟩
  · intro e
    cases e with
    | Csv m => exact Or.inl ⟨m, rfl⟩
    | IoError m => exact Or.inr (Or.inl ⟨m, rfl⟩)
    | ColumnNotFound c => exact Or.inr (Or.inr ⟨c, rfl⟩)
  · intro inp start stop e h
    cases inp with
    | ioError msg =>
      simp only [extract_rows] at h
      exact Or.inr ⟨msg, (Except.error.inj h).symm⟩
    | opened src =>
      simp only [extract_rows] at h
      exact Or.inl (extractRowsGo_error_shape start stop src.records 0 e h)
  · intro inp columns e h
    cases inp with
    | ioError msg =>
      simp only [extract_columns] at h
      exact Or.inr (Or.inl ⟨msg, (Except.error.inj h).symm⟩)
    | opened src =>
      simp only [extract_columns] at h
      cases hres : resolveIndices src.header columns with
      | error e0 =>
        rw [hres] at h
        have he : e0 = e := Except.error.inj h
        rcases resolveIndices_error_shape src.header columns e0 hres with ⟨c, hc, hce⟩
        exact Or.inr (Or.inr ⟨c, hc, he ▸ hce⟩)
      | ok indices =>
        rw [hres] at h
        exact Or.inl (extractColumnsGo_error_shape indices src.records e h)

/-- Witness for C9: the I/O failure of a file that cannot be opened is
classified as a parse or I/O error by the taxonomy. -/
theorem error_taxonomy_three_cases_witness :
    (∃ m, CsvSliceError.IoError "no such file" = CsvSliceError.Csv m) ∨
    (∃ m, CsvSliceError.IoError "no such file" = CsvSliceError.IoError m) :=
  error_taxonomy_three_cases.2.1 (.ioError "no such file") 0 1
    (CsvSliceError.IoError "no such file") rfl

/-- Claim C10: requesting zero columns succeeds and returns one empty row
per data row — the result is exactly the data records each mapped to the
empty list, so its length is the data-row count. -/
theorem extract_columns_empty_request (header : Record) (recs : List Record) :
    extract_columns (wfInput header recs) [] =
      Except.ok (recs.map (fun _ => ([] : List String))) ∧
    (recs.map (fun _ => ([] : List String))).length = recs.length := by
  constructor
  · have hres : resolveIndices header [] = Except.ok [] := rfl
    simp only [extract_columns, wfInput, hres, extractColumnsGo_allOk]
    rfl
  · exact List.length_map recs _

end CsvSlice
